import Mathlib

/-!
Verification of the structural document engine, the session store and the
reference cache of the system-design-assist backend.

Documents are modelled as lists of characters (`Line` is a newline-free
list of characters); the Python functions of
`backend/api/section.py`, `backend/core/context_manager.py` and
`backend/core/reference_store.py` are translated into executable Lean
definitions below, and the specification claims are settled as theorems
about those definitions.
-/

set_option maxHeartbeats 1000000

abbrev Line := List Char

/-- The whitespace characters matched by Python's regex class and by
`str.strip()` for ASCII text (the embedding models ASCII documents). -/
def isSpaceRe (c : Char) : Bool :=
  c == ' ' || c == '\t' || c == '\n' || c == '\r' || c == '\x0b' || c == '\x0c'

/-- Python `str.split('\n')`: split a character list at every newline,
keeping empty pieces; the empty string yields one empty piece. -/
def splitLines : List Char → List Line
  | [] => [[]]
  | c :: rest =>
    let r := splitLines rest
    if c == '\n' then [] :: r else (c :: r.headD []) :: r.tail

/-- Python `'\n'.join(lines)`. -/
def joinLines : List Line → List Char
  | [] => []
  | [l] => l
  | l :: l2 :: ls => l ++ '\n' :: joinLines (l2 :: ls)

/-- Python `'\n\n'.join(parts)`, used by the merge step. -/
def joinBlank : List (List Char) → List Char
  | [] => []
  | [l] => l
  | l :: l2 :: ls => l ++ '\n' :: '\n' :: joinBlank (l2 :: ls)

/-- Python `str.strip()`: drop leading and trailing whitespace. -/
def pyStrip (l : List Char) : List Char :=
  ((l.dropWhile isSpaceRe).reverse.dropWhile isSpaceRe).reverse

/-- Case-insensitive equality of character lists, modelling `re.IGNORECASE`
literal matching and Python `str.lower()` comparison. -/
def lowerEqList (a b : List Char) : Bool :=
  a.map Char.toLower == b.map Char.toLower

/-- Substring test, modelling Python's `needle in haystack`. -/
def isSubstr (p s : List Char) : Bool :=
  (List.range (s.length + 1)).any fun i => (s.drop i).take p.length == p

/-- Matching of one document line against the regex
`^#+\s*NAME\s*$` with `re.IGNORECASE` (`NAME` a `re.escape`d literal):
the line decomposes into one or more `#`, optional whitespace, the name
(case-insensitively), and optional trailing whitespace.  The search over
all decompositions models regex backtracking. -/
def matchesHeadingRegex (line name : List Char) : Bool :=
  (List.range (line.length + 1)).any fun h =>
    decide (1 ≤ h) && (line.take h).all (· == '#') &&
      ((List.range (line.length + 1)).any fun w =>
        let rest := line.drop h
        (rest.take w).all isSpaceRe &&
          lowerEqList ((rest.drop w).take name.length) name &&
          ((rest.drop w).drop name.length).all isSpaceRe)

/-- The second pattern of `extract_section_from_markdown`: the source
applies `re.escape` to `section_name.replace(' ', '\\s+')`, so every
space of the name becomes the three literal characters `\`, `s`, `+`. -/
def pattern2Name (name : List Char) : List Char :=
  (name.map fun c => if c == ' ' then ['\\', 's', '+'] else [c]).flatten

/-- A line matches the exact-heading phase: one of the two compiled
patterns of `extract_section_from_markdown` matches it. -/
def exactLineMatch (line name : List Char) : Bool :=
  matchesHeadingRegex line name || matchesHeadingRegex line (pattern2Name name)

/-- First character is `#` (Python `str.startswith('#')`). -/
def startsWithHash : List Char → Bool
  | [] => false
  | c :: _ => c == '#'

/-- The fuzzy phase of `extract_section_from_markdown`:
`section_name.lower() in line.lower() and line.strip().startswith('#')`. -/
def fuzzyLineMatch (line name : List Char) : Bool :=
  isSubstr (name.map Char.toLower) (line.map Char.toLower) &&
    startsWithHash (pyStrip line)

/-- `len(line) - len(line.lstrip('#'))`: number of leading `#`. -/
def leadHashCount (l : Line) : Nat :=
  (l.takeWhile (· == '#')).length

/-- Index of the first list element satisfying `p`, mirroring the
scan-and-break loops of the source. -/
def firstIdx (p : α → Bool) : List α → Option Nat
  | [] => none
  | a :: rest => if p a then some 0 else (firstIdx p rest).map (· + 1)

/-- The section-start search of `extract_section_from_markdown`: first
line matching an exact pattern, else (only if no line matches exactly)
first line matching the fuzzy rule; paired with the heading level taken
from the raw (unstripped) matched line. -/
def extractIdx (lines : List Line) (name : List Char) : Option (Nat × Nat) :=
  match firstIdx (fun l => exactLineMatch l name) lines with
  | some i => some (i, leadHashCount ((lines.getD i [])))
  | none =>
    (firstIdx (fun l => fuzzyLineMatch l name) lines).map
      fun i => (i, leadHashCount ((lines.getD i [])))

/-- The section-end test of `extract_section_from_markdown`: the scanned
line is stripped, and ends the section when it starts with `#` at a
level at most the matched level. -/
def isBoundary (level : Nat) (l : Line) : Bool :=
  startsWithHash (pyStrip l) && decide (leadHashCount (pyStrip l) ≤ level)

/-- The section-end search: first boundary line strictly after the start,
or the number of lines when none exists. -/
def sectionEnd (lines : List Line) (start level : Nat) : Nat :=
  match firstIdx (isBoundary level) (lines.drop (start + 1)) with
  | some k => start + 1 + k
  | none => lines.length

/-- Translation of `extract_section_from_markdown` (section.py): split
into lines, find the section start by the exact patterns with fuzzy
fallback, find the section end, and join the three slices; when no line
matches, return the whole document with two empty parts. -/
def extract_section_from_markdown (markdown name : List Char) :
    List Char × List Char × List Char :=
  let lines := splitLines markdown
  match extractIdx lines name with
  | none => (markdown, [], [])
  | some (st, lvl) =>
    let en := sectionEnd lines st lvl
    (joinLines (lines.take st),
     joinLines ((lines.drop st).take (en - st)),
     joinLines (lines.drop en))

/-- Translation of `merge_section_into_design` (section.py): strip each
part, keep the non-empty ones in order, join with a blank line. -/
def merge_section_into_design (before new_section after : List Char) : List Char :=
  let p1 := if (pyStrip before).isEmpty then [] else [pyStrip before]
  let p2 := if (pyStrip new_section).isEmpty then p1 else p1 ++ [pyStrip new_section]
  let p3 := if (pyStrip after).isEmpty then p2 else p2 ++ [pyStrip after]
  joinBlank p3

example : splitLines "a\nb".toList = ["a".toList, "b".toList] := by decide
example : joinLines (splitLines "a\n\nb c".toList) = "a\n\nb c".toList := by decide
example :
    extract_section_from_markdown "## A\nfoo\n### A.1\nbar\n## B\nbaz".toList "A".toList
      = ("".toList, "## A\nfoo\n### A.1\nbar".toList, "## B\nbaz".toList) := by decide
example :
    extract_section_from_markdown "## A\nx\n## B\ny".toList "Z".toList
      = ("## A\nx\n## B\ny".toList, [], []) := by decide
example :
    merge_section_into_design "x ".toList "".toList "".toList = "x".toList := by decide

/-!
## Session store (`backend/core/context_manager.py`)

`datetime.now()` is modelled by an explicit `now : Nat` argument, and
`str(uuid.uuid4())` by an explicit `fresh : String` argument.  The
process-wide `self.sessions` dict is an association list threaded
through the operations.
-/

/-- Translation of `SessionContext.__init__` fields. -/
structure SessionContext where
  session_id : String
  base_prompt : String
  latest_design : String
  history : List String
  created_at : Nat
  updated_at : Nat
deriving DecidableEq

abbrev SessionStore := List (String × SessionContext)

/-- Python dict lookup `self.sessions.get(k)`. -/
def dGet (m : SessionStore) (k : String) : Option SessionContext :=
  match m with
  | [] => none
  | (k2, v) :: rest => if k2 == k then some v else dGet rest k

/-- Python dict assignment `self.sessions[k] = v`. -/
def dSet (m : SessionStore) (k : String) (v : SessionContext) : SessionStore :=
  match m with
  | [] => [(k, v)]
  | (k2, v2) :: rest => if k2 == k then (k, v) :: rest else (k2, v2) :: dSet rest k v

/-- Python `del self.sessions[k]`: drop every binding of `k` (a dict has
at most one, so this is `del` on every state a dict can be in). -/
def dDel (m : SessionStore) (k : String) : SessionStore :=
  m.filter fun kv => !(kv.1 == k)

/-- Translation of `SessionContext.add_to_history`: push the current
latest design onto history, overwrite it, refresh `updated_at`. -/
def add_to_history (s : SessionContext) (design : String) (now : Nat) : SessionContext :=
  { s with history := s.history ++ [s.latest_design],
           latest_design := design,
           updated_at := now }

/-- The session id actually used by `create_session`: Python tests
`if not session_id`, so `None` and the empty string are replaced by a
freshly generated uuid. -/
def resolveId (session_id : Option String) (fresh : String) : String :=
  match session_id with
  | none => fresh
  | some s => if s == "" then fresh else s

/-- Translation of `ContextManager.create_session`: build a fresh
context (empty history, both timestamps now) and assign it into the
dict, returning the id used. -/
def create_session (m : SessionStore) (base_prompt initial_design : String)
    (session_id : Option String) (fresh : String) (now : Nat) : String × SessionStore :=
  let sid := resolveId session_id fresh
  (sid, dSet m sid
    { session_id := sid, base_prompt := base_prompt, latest_design := initial_design,
      history := [], created_at := now, updated_at := now })

/-- Translation of `ContextManager.get_session`. -/
def get_session (m : SessionStore) (session_id : String) : Option SessionContext :=
  dGet m session_id

/-- Translation of `ContextManager.update_session`: missing id returns
`False` and leaves the store alone; otherwise either push-and-overwrite
through `add_to_history` or overwrite the latest design directly, both
refreshing `updated_at`. -/
def update_session (m : SessionStore) (session_id updated_design : String)
    (add_hist : Bool) (now : Nat) : Bool × SessionStore :=
  match dGet m session_id with
  | none => (false, m)
  | some s =>
    if add_hist then
      (true, dSet m session_id (add_to_history s updated_design now))
    else
      (true, dSet m session_id
        { s with latest_design := updated_design, updated_at := now })

/-- Translation of `ContextManager.get_or_create_session`: a truthy id
already in the dict is updated without history growth; otherwise a new
session is created (with the supplied id resolved as in `create_session`). -/
def get_or_create_session (m : SessionStore) (base_prompt design : String)
    (session_id : Option String) (fresh : String) (now : Nat) : String × SessionStore :=
  match session_id with
  | some sid =>
    if sid ≠ "" ∧ (dGet m sid).isSome then
      (sid, (update_session m sid design false now).2)
    else
      create_session m base_prompt design session_id fresh now
  | none => create_session m base_prompt design session_id fresh now

/-- Translation of `ContextManager.delete_session`. -/
def delete_session (m : SessionStore) (session_id : String) : Bool × SessionStore :=
  if (dGet m session_id).isSome then (true, dDel m session_id) else (false, m)

/-- One store operation, for stating invariants over arbitrary call
sequences.  `create` and `getOrCreate` carry the modelled uuid and
clock arguments. -/
inductive Op where
  | create (base_prompt initial_design : String) (session_id : Option String)
      (fresh : String) (now : Nat)
  | get (session_id : String)
  | update (session_id updated_design : String) (add_hist : Bool) (now : Nat)
  | getOrCreate (base_prompt design : String) (session_id : Option String)
      (fresh : String) (now : Nat)
  | delete (session_id : String)

/-- The store state after one operation. -/
def stepOp (m : SessionStore) : Op → SessionStore
  | Op.create bp d sid fr now => (create_session m bp d sid fr now).2
  | Op.get _ => m
  | Op.update sid d ah now => (update_session m sid d ah now).2
  | Op.getOrCreate bp d sid fr now => (get_or_create_session m bp d sid fr now).2
  | Op.delete sid => (delete_session m sid).2

/-- An operation is a `create` (directly, or through `getOrCreate`
falling back to creation) whose resolved id is already in the store:
the one way the source silently replaces an existing session wholesale. -/
def overwritingCreate (m : SessionStore) : Op → Bool
  | Op.create _ _ sid fr _ => (dGet m (resolveId sid fr)).isSome
  | Op.getOrCreate _ _ sid fr _ =>
    match sid with
    | some s =>
      if s ≠ "" ∧ (dGet m s).isSome then false
      else (dGet m (resolveId sid fr)).isSome
    | none => (dGet m fr).isSome
  | _ => false

/-!
## Reference cache (`backend/core/reference_store.py`)

The SQLite backing store is modelled as a list of rows together with an
executor for the statements the source issues.  The executor is a
parameter of `get`/`set`, so that backing-store failures (a statement
raising `sqlite3.Error`) can be injected; `sqliteExec` is the faithful
executor, which refuses any statement whose unquoted table name is a
reserved SQLite keyword — as SQLite itself does — and otherwise applies
the obvious row semantics.  `hashlib.md5` is modelled as an injective
digest (the identity on the query text), and timestamps as seconds in
`Nat`, so `timedelta(days=7)` is `7 * 86400`.
-/

/-- One row of the cache table, as created by `_init_db`. -/
structure CacheRow where
  query_hash : String
  query_text : String
  payload : List String
  expires_at : Nat
deriving DecidableEq

abbrev CacheDb := List CacheRow

/-- The statements `ReferenceStore.get`/`set`/`_delete` issue. -/
inductive SqlCmd where
  | select (table hash : String)
  | insertRep (table : String) (row : CacheRow)
  | deleteRow (table hash : String)

/-- Result of executing a statement: new database and returned rows, or
a raised `sqlite3.Error`. -/
inductive SqlOutcome where
  | ok (db : CacheDb) (rows : List CacheRow)
  | err

abbrev CacheExec := CacheDb → SqlCmd → SqlOutcome

/-- The table name the source bakes into every SQL string. -/
def referencesTableName : String := "references"

/-- Modelled from SQLite: reserved keywords that cannot stand as an
unquoted table name (a statement naming such a table raises
`sqlite3.OperationalError: near "...": syntax error`). -/
def sqliteReservedTableWords : List String :=
  ["add", "all", "alter", "and", "as", "autoincrement", "between", "case",
   "check", "collate", "commit", "constraint", "create", "default",
   "deferrable", "delete", "distinct", "drop", "else", "escape", "except",
   "exists", "foreign", "from", "group", "having", "in", "index", "insert",
   "intersect", "into", "is", "isnull", "join", "limit", "not", "notnull",
   "null", "on", "or", "order", "primary", "references", "select", "set",
   "table", "then", "to", "transaction", "union", "unique", "update",
   "using", "values", "when", "where"]

def tableOf : SqlCmd → String
  | SqlCmd.select t _ => t
  | SqlCmd.insertRep t _ => t
  | SqlCmd.deleteRow t _ => t

def tableNameReserved (t : String) : Bool :=
  sqliteReservedTableWords.any fun k => lowerEqList k.toList t.toList

/-- `INSERT OR REPLACE` on the unique `query_hash` column. -/
def upsertRow (db : CacheDb) (row : CacheRow) : CacheDb :=
  match db with
  | [] => [row]
  | r :: rest =>
    if r.query_hash == row.query_hash then row :: rest
    else r :: upsertRow rest row

/-- The SQLite executor: syntax error on a reserved unquoted table name,
otherwise plain row semantics for the three statements used. -/
def sqliteExec : CacheExec := fun db cmd =>
  if tableNameReserved (tableOf cmd) then SqlOutcome.err
  else
    match cmd with
    | SqlCmd.select _ h => SqlOutcome.ok db (db.filter fun r => r.query_hash == h)
    | SqlCmd.insertRep _ row => SqlOutcome.ok (upsertRow db row) []
    | SqlCmd.deleteRow _ h =>
      SqlOutcome.ok (db.filter fun r => !(r.query_hash == h)) []

/-- `hashlib.md5(query.encode()).hexdigest()`, modelled as an injective
digest of the query text. -/
def md5Model (query : String) : String := query

/-- `CACHE_EXPIRY_DAYS = 7`, in modelled seconds. -/
def cacheExpirySeconds : Nat := 7 * 86400

/-- Translation of `ReferenceStore.get`: select by query hash; on a
raised error return `None` (the `except` clause); on a row, return the
payload if `expires_at` is still in the future, otherwise delete the
row (itself swallowing errors) and return `None`; no row is `None`. -/
def ReferenceStore.get (exec : CacheExec) (db : CacheDb) (query : String)
    (now : Nat) : Option (List String) × CacheDb :=
  let h := md5Model query
  match exec db (SqlCmd.select referencesTableName h) with
  | SqlOutcome.err => (none, db)
  | SqlOutcome.ok db1 rows =>
    match rows with
    | [] => (none, db1)
    | row :: _ =>
      if now < row.expires_at then (some row.payload, db1)
      else
        match exec db1 (SqlCmd.deleteRow referencesTableName h) with
        | SqlOutcome.err => (none, db1)
        | SqlOutcome.ok db2 _ => (none, db2)

/-- Translation of `ReferenceStore.set`: upsert the row with
`expires_at = now + 7 days`; a raised error is logged and swallowed,
leaving the database as it was. -/
def ReferenceStore.set (exec : CacheExec) (db : CacheDb) (query : String)
    (references : List String) (now : Nat) : CacheDb :=
  let row : CacheRow :=
    { query_hash := md5Model query, query_text := query,
      payload := references, expires_at := now + cacheExpirySeconds }
  match exec db (SqlCmd.insertRep referencesTableName row) with
  | SqlOutcome.err => db
  | SqlOutcome.ok db1 _ => db1

example :
    (ReferenceStore.get sqliteExec
      (ReferenceStore.set sqliteExec [] "q" ["r1", "r2"] 0) "q" 0).1 = none := by decide

/-! ## Supporting lemmas -/

theorem splitLines_ne_nil : ∀ s : List Char, splitLines s ≠ [] := by
  intro s
  cases s with
  | nil => simp [splitLines]
  | cons c rest =>
    unfold splitLines
    by_cases hc : (c == '\n') = true
    · rw [if_pos hc]; simp
    · rw [if_neg hc]; simp

theorem joinLines_cons (l : Line) (ls : List Line) (h : ls ≠ []) :
    joinLines (l :: ls) = l ++ '\n' :: joinLines ls := by
  cases ls with
  | nil => exact absurd rfl h
  | cons l2 ls2 => rfl

theorem joinLines_splitLines : ∀ s : List Char, joinLines (splitLines s) = s := by
  intro s
  induction s with
  | nil => rfl
  | cons c rest ih =>
    unfold splitLines
    by_cases hc : (c == '\n') = true
    · rw [if_pos hc]
      rw [joinLines_cons _ _ (splitLines_ne_nil rest), List.nil_append, ih]
      have : c = '\n' := by simpa using hc
      rw [this]
    · rw [if_neg hc]
      cases h : splitLines rest with
      | nil => exact absurd h (splitLines_ne_nil rest)
      | cons l ls =>
        rw [h] at ih
        cases ls with
        | nil =>
          simp only [List.headD_cons, List.tail_cons]
          have hl : joinLines [l] = l := rfl
          rw [hl] at ih
          simpa [joinLines] using congrArg (c :: ·) ih
        | cons l2 ls2 =>
          simp only [List.headD_cons, List.tail_cons]
          rw [joinLines_cons (c :: l) (l2 :: ls2) (by simp)]
          rw [joinLines_cons l (l2 :: ls2) (by simp)] at ih
          rw [List.cons_append, ih]

theorem joinLines_append (xs ys : List Line) (hx : xs ≠ []) (hy : ys ≠ []) :
    joinLines (xs ++ ys) = joinLines xs ++ '\n' :: joinLines ys := by
  induction xs with
  | nil => exact absurd rfl hx
  | cons l xs2 ih =>
    cases xs2 with
    | nil =>
      rw [List.singleton_append, joinLines_cons _ _ hy]
      rfl
    | cons l2 xs3 =>
      rw [List.cons_append, joinLines_cons _ _ (by simp),
        joinLines_cons _ _ (by simp), ih (by simp), List.append_assoc,
        List.cons_append]

theorem firstIdx_none_spec {α : Type} (p : α → Bool) (l : List α)
    (h : firstIdx p l = none) : ∀ a ∈ l, p a = false := by
  induction l with
  | nil => intro a ha; cases ha
  | cons b rest ih =>
    unfold firstIdx at h
    by_cases hb : p b = true
    · rw [if_pos hb] at h; cases h
    · rw [if_neg hb] at h
      intro a ha
      rcases List.mem_cons.mp ha with rfl | hmem
      · simpa using hb
      · cases hfi : firstIdx p rest with
        | none => exact ih hfi a hmem
        | some k => rw [hfi] at h; cases h

theorem firstIdx_some_spec {α : Type} (p : α → Bool) (d : α) :
    ∀ (l : List α) (i : Nat), firstIdx p l = some i →
      i < l.length ∧ p (l.getD i d) = true ∧ ∀ j, j < i → p (l.getD j d) = false := by
  intro l
  induction l with
  | nil => intro i h; cases h
  | cons b rest ih =>
    intro i h
    unfold firstIdx at h
    by_cases hb : p b = true
    · rw [if_pos hb] at h
      cases h
      exact ⟨Nat.succ_pos _, by simpa using hb, fun j hj => absurd hj (Nat.not_lt_zero j)⟩
    · rw [if_neg hb] at h
      cases hfi : firstIdx p rest with
      | none => rw [hfi] at h; cases h
      | some k =>
        rw [hfi] at h
        simp at h
        subst h
        obtain ⟨h1, h2, h3⟩ := ih k hfi
        refine ⟨Nat.succ_lt_succ h1, by simpa using h2, ?_⟩
        intro j hj
        cases j with
        | zero => rw [List.getD_cons_zero]; simpa using hb
        | succ j2 =>
          rw [List.getD_cons_succ]
          exact h3 j2 (Nat.lt_of_succ_lt_succ hj)

theorem firstIdx_eq_some_of_first {α : Type} (p : α → Bool) (d : α) :
    ∀ (l : List α) (i : Nat), i < l.length → p (l.getD i d) = true →
      (∀ j, j < i → p (l.getD j d) = false) → firstIdx p l = some i := by
  intro l
  induction l with
  | nil => intro i h1; cases h1
  | cons b rest ih =>
    intro i h1 h2 h3
    cases i with
    | zero =>
      unfold firstIdx
      rw [if_pos (by simpa using h2)]
    | succ k =>
      unfold firstIdx
      have hb : p b = false := by simpa using h3 0 (Nat.succ_pos k)
      rw [if_neg (by simp [hb])]
      rw [ih k (Nat.lt_of_succ_lt_succ h1) (by simpa using h2)
        (fun j hj => by simpa using h3 (j + 1) (Nat.succ_lt_succ hj))]
      rfl

theorem getD_drop {α : Type} (d : α) :
    ∀ (l : List α) (n k : Nat), (l.drop n).getD k d = l.getD (n + k) d := by
  intro l
  induction l with
  | nil => intro n k; simp
  | cons b rest ih =>
    intro n k
    cases n with
    | zero => simp
    | succ n2 =>
      rw [List.drop_succ_cons, ih n2 k, Nat.succ_add, List.getD_cons_succ]

theorem dGet_dSet (m : SessionStore) (k q : String) (v : SessionContext) :
    dGet (dSet m k v) q = if k == q then some v else dGet m q := by
  induction m with
  | nil =>
    simp only [dSet, dGet]
  | cons kv rest ih =>
    obtain ⟨k2, v2⟩ := kv
    by_cases h : k2 = k
    · subst h
      simp only [dSet, beq_self_eq_true, if_true]
      by_cases h2 : k2 = q
      · subst h2; simp [dGet]
      · simp [dGet, h2, beq_iff_eq]
    · simp only [dSet, beq_iff_eq, if_neg h]
      by_cases h2 : k2 = q
      · subst h2
        have hkq : ¬ (k = k2) := fun he => h he.symm
        simp [dGet, hkq]
      · simp [dGet, h2, ih, beq_iff_eq]

theorem dGet_dSet_self (m : SessionStore) (k : String) (v : SessionContext) :
    dGet (dSet m k v) k = some v := by
  rw [dGet_dSet, if_pos (by simp)]

theorem dGet_dSet_ne (m : SessionStore) (k q : String) (v : SessionContext)
    (h : k ≠ q) : dGet (dSet m k v) q = dGet m q := by
  rw [dGet_dSet, if_neg (by simp [h])]

theorem dGet_dDel (m : SessionStore) (k q : String) :
    dGet (dDel m k) q = if k == q then none else dGet m q := by
  induction m with
  | nil => simp only [dDel, List.filter_nil, dGet]; split <;> rfl
  | cons kv rest ih =>
    obtain ⟨k2, v2⟩ := kv
    by_cases h : k2 = k
    · subst h
      have hstep : dDel ((k2, v2) :: rest) k2 = dDel rest k2 := by
        simp [dDel]
      rw [hstep, ih]
      by_cases h2 : k2 = q
      · subst h2; simp
      · simp [dGet, h2, beq_iff_eq]
    · have hstep : dDel ((k2, v2) :: rest) k = (k2, v2) :: dDel rest k := by
        simp [dDel, h]
      rw [hstep]
      by_cases h2 : k2 = q
      · subst h2
        have hkq : ¬ (k = k2) := fun he => h he.symm
        simp [dGet, hkq]
      · simp [dGet, h2, beq_iff_eq, ih]

theorem firstIdx_eq_none {α : Type} (p : α → Bool) (l : List α)
    (h : ∀ a ∈ l, p a = false) : firstIdx p l = none := by
  induction l with
  | nil => rfl
  | cons b rest ih =>
    unfold firstIdx
    rw [if_neg (by simp [h b (List.mem_cons_self b rest)])]
    rw [ih fun a ha => h a (List.mem_cons_of_mem b ha)]
    rfl

theorem getD_mem {α : Type} (d : α) :
    ∀ (l : List α) (n : Nat), n < l.length → l.getD n d ∈ l := by
  intro l
  induction l with
  | nil => intro n h; simp at h
  | cons b rest ih =>
    intro n h
    cases n with
    | zero => rw [List.getD_cons_zero]; exact List.mem_cons_self b rest
    | succ n2 =>
      rw [List.getD_cons_succ]
      exact List.mem_cons_of_mem b (ih n2 (Nat.lt_of_succ_lt_succ h))

theorem extractIdx_start_lt (L : List Line) (name : List Char) (st lvl : Nat)
    (h : extractIdx L name = some (st, lvl)) : st < L.length := by
  unfold extractIdx at h
  cases he : firstIdx (fun l => exactLineMatch l name) L with
  | some i =>
    rw [he] at h
    simp only [Option.some.injEq, Prod.mk.injEq] at h
    obtain ⟨h1, _⟩ := h
    subst h1
    exact (firstIdx_some_spec _ [] L _ he).1
  | none =>
    rw [he] at h
    cases hf : firstIdx (fun l => fuzzyLineMatch l name) L with
    | none => rw [hf] at h; cases h
    | some i =>
      rw [hf] at h
      simp only [Option.map_some', Option.some.injEq, Prod.mk.injEq] at h
      obtain ⟨h1, _⟩ := h
      subst h1
      exact (firstIdx_some_spec _ [] L _ hf).1

theorem sectionEnd_spec (L : List Line) (st lvl : Nat) (hst : st < L.length) :
    st < sectionEnd L st lvl ∧ sectionEnd L st lvl ≤ L.length ∧
    (∀ j, st < j → j < sectionEnd L st lvl → isBoundary lvl (L.getD j []) = false) ∧
    (sectionEnd L st lvl < L.length →
      isBoundary lvl (L.getD (sectionEnd L st lvl) []) = true) := by
  cases hf : firstIdx (isBoundary lvl) (L.drop (st + 1)) with
  | none =>
    have hE : sectionEnd L st lvl = L.length := by
      unfold sectionEnd
      rw [hf]
    rw [hE]
    refine ⟨hst, Nat.le_refl _, ?_, ?_⟩
    · intro j h1 h2
      have he : L.getD j [] = (L.drop (st + 1)).getD (j - (st + 1)) [] := by
        rw [getD_drop]
        congr 1
        omega
      rw [he]
      refine firstIdx_none_spec _ _ hf _ (getD_mem _ _ _ ?_)
      rw [List.length_drop]
      omega
    · intro hlt
      exact absurd hlt (Nat.lt_irrefl _)
  | some k =>
    have hE : sectionEnd L st lvl = st + 1 + k := by
      unfold sectionEnd
      rw [hf]
    rw [hE]
    obtain ⟨hk1, hk2, hk3⟩ := firstIdx_some_spec _ [] _ k hf
    rw [List.length_drop] at hk1
    refine ⟨by omega, by omega, ?_, ?_⟩
    · intro j h1 h2
      have he : (L.drop (st + 1)).getD (j - (st + 1)) [] = L.getD j [] := by
        rw [getD_drop]
        congr 1
        omega
      rw [← he]
      exact hk3 _ (by omega)
    · intro _
      have he : (L.drop (st + 1)).getD k [] = L.getD (st + 1 + k) [] :=
        getD_drop _ _ _ _
      rw [← he]
      exact hk2

theorem take_drop_ne_nil {α : Type} (L : List α) (st en : Nat)
    (h1 : st < en) (h2 : en ≤ L.length) : (L.drop st).take (en - st) ≠ [] := by
  intro hnil
  have hlen := congrArg List.length hnil
  rw [List.length_take, List.length_drop, List.length_nil] at hlen
  omega

theorem drop_ne_nil {α : Type} (L : List α) (n : Nat) (h : n < L.length) :
    L.drop n ≠ [] := by
  intro hnil
  have hlen := congrArg List.length hnil
  rw [List.length_drop, List.length_nil] at hlen
  omega

theorem take_ne_nil {α : Type} (L : List α) (n : Nat) (h1 : n ≠ 0)
    (h2 : L ≠ []) : L.take n ≠ [] := by
  intro hnil
  have hlen := congrArg List.length hnil
  rw [List.length_take, List.length_nil] at hlen
  have hL : L.length ≠ 0 := fun he => h2 (List.length_eq_zero.mp he)
  omega

/-- Joining all lines equals joining the three slices `[0, st)`,
`[st, en)`, `[en, …)` with explicit newline seams. -/
theorem joinLines_partition_eq (L : List Line) (st en : Nat)
    (h1 : st < en) (h2 : en ≤ L.length) :
    joinLines L
      = (if st = 0 then [] else joinLines (L.take st) ++ ['\n'])
        ++ joinLines ((L.drop st).take (en - st))
        ++ (if en = L.length then [] else '\n' :: joinLines (L.drop en)) := by
  have hLne : L ≠ [] := by
    intro hnil
    rw [hnil] at h2
    simp at h2
    omega
  by_cases hst0 : st = 0
  · subst hst0
    rw [if_pos rfl, List.nil_append, List.drop_zero, Nat.sub_zero]
    by_cases hen : en = L.length
    · rw [if_pos hen, List.append_nil, hen, List.take_length]
    · rw [if_neg hen]
      have henlt : en < L.length := Nat.lt_of_le_of_ne h2 hen
      have hmidne : L.take en ≠ [] := take_ne_nil L en (by omega) hLne
      have hpostne : L.drop en ≠ [] := drop_ne_nil L en henlt
      conv_lhs => rw [← List.take_append_drop en L]
      rw [joinLines_append _ _ hmidne hpostne]
  · rw [if_neg hst0]
    have hstlt : st < L.length := Nat.lt_of_lt_of_le h1 h2
    have htakene : L.take st ≠ [] := take_ne_nil L st hst0 hLne
    have hdropne : L.drop st ≠ [] := drop_ne_nil L st hstlt
    by_cases hen : en = L.length
    · rw [if_pos hen, List.append_nil]
      have hmid : (L.drop st).take (en - st) = L.drop st := by
        apply List.take_of_length_le
        rw [List.length_drop]
        omega
      rw [hmid]
      conv_lhs => rw [← List.take_append_drop st L]
      rw [joinLines_append _ _ htakene hdropne]
      simp [List.append_assoc]
    · rw [if_neg hen]
      have henlt : en < L.length := Nat.lt_of_le_of_ne h2 hen
      have hmidne : (L.drop st).take (en - st) ≠ []
        := take_drop_ne_nil L st en h1 h2
      have hpostne : L.drop en ≠ [] := drop_ne_nil L en henlt
      have hdecomp : L.drop st = (L.drop st).take (en - st) ++ L.drop en := by
        conv_lhs => rw [← List.take_append_drop (en - st) (L.drop st)]
        congr 1
        rw [List.drop_drop]
        congr 1
        omega
      have hrestne : (L.drop st).take (en - st) ++ L.drop en ≠ [] := by
        intro hnil
        exact hmidne (List.append_eq_nil.mp hnil).1
      conv_lhs => rw [← List.take_append_drop st L, hdecomp]
      rw [joinLines_append _ _ htakene hrestne,
        joinLines_append _ _ hmidne hpostne]
      simp [List.append_assoc]

theorem merge_eq_filter_join (b s a : List Char) :
    merge_section_into_design b s a
      = joinBlank (([b, s, a].map pyStrip).filter fun x => !x.isEmpty) := by
  unfold merge_section_into_design
  by_cases h1 : (pyStrip b).isEmpty <;>
    by_cases h2 : (pyStrip s).isEmpty <;>
      by_cases h3 : (pyStrip a).isEmpty <;>
        simp [h1, h2, h3]

/-! ## Claim-side definitions (worded from the spec, for refinement
contrast with the source-derived definitions) -/

/-- A line consisting solely of whitespace. -/
def isBlankLine (l : Line) : Bool := l.all isSpaceRe

/-- Modelled from the spec's words in C1/C7: trim a fragment of its
leading and trailing *blank lines* only (whole whitespace-only lines),
leaving every other character in place. -/
def trimBlankLines (s : List Char) : List Char :=
  joinLines ((((splitLines s).dropWhile isBlankLine).reverse.dropWhile
    isBlankLine).reverse)

/-- Modelled from the spec's words in C1/C7: the blank-line-normalized
join — each part trimmed of leading/trailing blank lines only, empty
parts dropped, survivors joined by exactly one blank line. -/
def specBlankLineMerge (b s a : List Char) : List Char :=
  joinBlank (([b, s, a].map trimBlankLines).filter fun x => !x.isEmpty)

/-- Modelled from the spec's words in C5 (§3 of the spec): a heading
line carries its marker count at the start; its text is the remainder
after the markers. -/
def headingTextOf (l : Line) : Line := pyStrip (l.dropWhile (· == '#'))

/-- Tokens of a line split at whitespace (for whitespace-normalized
comparison). -/
def wsTokens (l : Line) : List Line :=
  (l.foldr
    (fun c acc =>
      if isSpaceRe c then [] :: acc
      else
        match acc with
        | [] => [[c]]
        | w :: ws => (c :: w) :: ws)
    []).filter fun w => !w.isEmpty

/-- Join tokens with single spaces. -/
def joinSpace : List Line → List Char
  | [] => []
  | [w] => w
  | w :: w2 :: ws => w ++ ' ' :: joinSpace (w2 :: ws)

/-- Whitespace normalization: collapse whitespace runs and trim. -/
def wsNormalize (l : Line) : Line := joinSpace (wsTokens l)

/-- Modelled from the claim's words (C5 exact rule): a heading line
whose heading text equals the name case-insensitively,
whitespace-normalized. -/
def specExactHeadingMatch (l name : List Char) : Bool :=
  startsWithHash l &&
    lowerEqList (wsNormalize (headingTextOf l)) (wsNormalize name)

/-- Modelled from the claim's words (C5 substring rule): a heading line
whose heading text contains the name case-insensitively. -/
def specSubstrHeadingMatch (l name : List Char) : Bool :=
  startsWithHash l &&
    isSubstr (name.map Char.toLower) ((headingTextOf l).map Char.toLower)

/-- `i` is the first index of `lines` satisfying `p`. -/
def FirstSuchIdx (p : Line → Bool) (lines : List Line) (i : Nat) : Prop :=
  i < lines.length ∧ p (lines.getD i []) = true ∧
    ∀ j, j < i → p (lines.getD j []) = false

/-! ## Claim theorems: section engine -/

/-- C7 counterexample: the claim says merge trims each fragment of
leading/trailing *blank lines only*; the source strips all leading and
trailing whitespace, so a trailing space on a non-blank line is also
removed: merging the single fragment `"x "` yields `"x"`, not `"x "`. -/
theorem c7_counterexample :
    merge_section_into_design "x ".toList "".toList "".toList
        ≠ specBlankLineMerge "x ".toList "".toList "".toList ∧
    merge_section_into_design "x ".toList "".toList "".toList = "x".toList ∧
    specBlankLineMerge "x ".toList "".toList "".toList = "x ".toList := by
  decide

/-- C7 amended: merge strips each of the three fragments of all leading
and trailing whitespace (hence in particular of blank lines), drops the
fragments that are then empty, and joins the survivors with exactly one
blank line, preserving the order before, section, after; it is a total
function, so it never fails. -/
theorem c7_merge_normalizes (b s a : List Char) :
    merge_section_into_design b s a
      = joinBlank (([b, s, a].map pyStrip).filter fun x => !x.isEmpty) :=
  merge_eq_filter_join b s a

/-- C5 counterexample: the claim reads both match rules on the heading
*text* (the remainder after the markers); the source's fuzzy rule
searches the whole lowercased line, markers included.  For the name
`"#"` and document `"x\n# A"`, no heading text equals or contains `"#"`
— so the claim requires `(document, "", "")` — yet the source matches
the heading line. -/
theorem c5_counterexample :
    ((splitLines "x\n# A".toList).all fun l =>
        !(specExactHeadingMatch l "#".toList) &&
          !(specSubstrHeadingMatch l "#".toList)) = true ∧
    extract_section_from_markdown "x\n# A".toList "#".toList
        ≠ ("x\n# A".toList, [], []) ∧
    extract_section_from_markdown "x\n# A".toList "#".toList
        = ("x".toList, "# A".toList, []) := by
  decide

/-- C5 amended: if some line matches one of the two exact heading
patterns (one or more `#`, optional whitespace, the name matched
case-insensitively as a literal — or with each of its spaces replaced
by the literal text `\s+` — optional trailing whitespace), locate
starts at the first such line; otherwise, if some line whose stripped
form starts with `#` contains the name case-insensitively *anywhere in
the whole line, markers included*, locate starts at the first such
line; otherwise locate returns `(document, "", "")`.  The exact rule
takes precedence over the substring rule across the whole document,
and locate is total. -/
theorem c5_match_priority (md name : List Char) :
    (((splitLines md).all fun l =>
        !(exactLineMatch l name) && !(fuzzyLineMatch l name)) = true →
      extract_section_from_markdown md name = (md, [], [])) ∧
    (∀ i, FirstSuchIdx (fun l => exactLineMatch l name) (splitLines md) i →
      extractIdx (splitLines md) name
        = some (i, leadHashCount ((splitLines md).getD i []))) ∧
    (∀ i, ((splitLines md).all fun l => !(exactLineMatch l name)) = true →
      FirstSuchIdx (fun l => fuzzyLineMatch l name) (splitLines md) i →
      extractIdx (splitLines md) name
        = some (i, leadHashCount ((splitLines md).getD i []))) := by
  refine ⟨?_, ?_, ?_⟩
  · intro hall
    have hex : firstIdx (fun l => exactLineMatch l name) (splitLines md) = none := by
      refine firstIdx_eq_none _ _ fun a ha => ?_
      have := List.all_eq_true.mp hall a ha
      simp only [Bool.and_eq_true, Bool.not_eq_true'] at this
      exact this.1
    have hfz : firstIdx (fun l => fuzzyLineMatch l name) (splitLines md) = none := by
      refine firstIdx_eq_none _ _ fun a ha => ?_
      have := List.all_eq_true.mp hall a ha
      simp only [Bool.and_eq_true, Bool.not_eq_true'] at this
      exact this.2
    simp [extract_section_from_markdown, extractIdx, hex, hfz]
  · intro i hi
    obtain ⟨h1, h2, h3⟩ := hi
    have := firstIdx_eq_some_of_first (fun l => exactLineMatch l name) []
      (splitLines md) i h1 h2 h3
    simp [extractIdx, this]
  · intro i hall hi
    obtain ⟨h1, h2, h3⟩ := hi
    have hex : firstIdx (fun l => exactLineMatch l name) (splitLines md) = none := by
      refine firstIdx_eq_none _ _ fun a ha => ?_
      have := List.all_eq_true.mp hall a ha
      simp only [Bool.not_eq_true'] at this
      exact this
    have := firstIdx_eq_some_of_first (fun l => fuzzyLineMatch l name) []
      (splitLines md) i h1 h2 h3
    simp [extractIdx, hex, this]

/-- Witness for C5 amended: the first exact heading match is taken on a
concrete document. -/
theorem c5_match_priority_witness :
    extractIdx (splitLines "## A\nx".toList) "A".toList
      = some (0, leadHashCount ((splitLines "## A\nx".toList).getD 0 [])) :=
  (c5_match_priority "## A\nx".toList "A".toList).2.1 0
    ⟨by decide, by decide, fun j hj => absurd hj (Nat.not_lt_zero j)⟩

/-- Conclusion of C6: with `en` the section end computed for start `st`
and level `lvl`, the located triple is exactly the three slices
`[0, st)`, `[st, en)`, `[en, …)`; no line strictly inside the section is
a boundary (a stripped line starting with `#` at level ≤ `lvl`); the
boundary line itself, when it exists, starts `after`; and every heading
line strictly inside the section has level strictly greater than
`lvl`. -/
def C6Concl (md name : List Char) (st lvl : Nat) : Prop :=
  st < sectionEnd (splitLines md) st lvl ∧
  sectionEnd (splitLines md) st lvl ≤ (splitLines md).length ∧
  extract_section_from_markdown md name
    = (joinLines ((splitLines md).take st),
       joinLines (((splitLines md).drop st).take
         (sectionEnd (splitLines md) st lvl - st)),
       joinLines ((splitLines md).drop (sectionEnd (splitLines md) st lvl))) ∧
  (∀ j, st < j → j < sectionEnd (splitLines md) st lvl →
    isBoundary lvl ((splitLines md).getD j []) = false) ∧
  (sectionEnd (splitLines md) st lvl < (splitLines md).length →
    isBoundary lvl ((splitLines md).getD (sectionEnd (splitLines md) st lvl) [])
      = true) ∧
  (∀ j, st < j → j < sectionEnd (splitLines md) st lvl →
    startsWithHash (pyStrip ((splitLines md).getD j [])) = true →
    lvl < leadHashCount (pyStrip ((splitLines md).getD j [])))

/-- C6: when locate matches a heading at line `st` with level `lvl`, the
section spans from the matched line up to (exclusive) the first
subsequent heading line of level ≤ `lvl` — end of document when there
is none — nested sub-headings of strictly greater level stay inside the
section, and `after` starts exactly at that boundary line. -/
theorem c6_section_boundaries (md name : List Char) (st lvl : Nat)
    (h : extractIdx (splitLines md) name = some (st, lvl)) :
    C6Concl md name st lvl := by
  have hst : st < (splitLines md).length := extractIdx_start_lt _ _ _ _ h
  obtain ⟨hs1, hs2, hs3, hs4⟩ := sectionEnd_spec (splitLines md) st lvl hst
  have hex : extract_section_from_markdown md name
      = (joinLines ((splitLines md).take st),
         joinLines (((splitLines md).drop st).take
           (sectionEnd (splitLines md) st lvl - st)),
         joinLines ((splitLines md).drop (sectionEnd (splitLines md) st lvl))) := by
    simp only [extract_section_from_markdown, h]
  refine ⟨hs1, hs2, hex, hs3, hs4, ?_⟩
  intro j hj1 hj2 hh
  have hb := hs3 j hj1 hj2
  simp only [isBoundary, hh, Bool.true_and, decide_eq_false_iff_not] at hb
  omega

/-- Witness for C6 on the spec's nested-inclusion example: locating
`"A"` in `"## A\nfoo\n### A.1\nbar\n## B\nbaz"` keeps the level-3
sub-heading inside the section and stops before `"## B"`. -/
theorem c6_section_boundaries_witness :
    C6Concl "## A\nfoo\n### A.1\nbar\n## B\nbaz".toList "A".toList 0 2 :=
  c6_section_boundaries "## A\nfoo\n### A.1\nbar\n## B\nbaz".toList
    "A".toList 0 2 (by decide)

/-- C1 counterexample: the claim promises `merge(*locate(D, name))`
equals `D` up to *blank-line* normalization of the three parts.  For
`D = "x \n## A\ny"` the located `before` is `"x "`; merge strips the
trailing space of the non-blank line `"x "`, so the merged document is
`"x\n\n## A\ny"` while blank-line normalization keeps `"x \n\n## A\ny"`. -/
theorem c1_counterexample :
    (extract_section_from_markdown "x \n## A\ny".toList "A".toList).2.1 ≠ [] ∧
    merge_section_into_design
        (extract_section_from_markdown "x \n## A\ny".toList "A".toList).1
        (extract_section_from_markdown "x \n## A\ny".toList "A".toList).2.1
        (extract_section_from_markdown "x \n## A\ny".toList "A".toList).2.2
      ≠ specBlankLineMerge
        (extract_section_from_markdown "x \n## A\ny".toList "A".toList).1
        (extract_section_from_markdown "x \n## A\ny".toList "A".toList).2.1
        (extract_section_from_markdown "x \n## A\ny".toList "A".toList).2.2 ∧
    merge_section_into_design
        (extract_section_from_markdown "x \n## A\ny".toList "A".toList).1
        (extract_section_from_markdown "x \n## A\ny".toList "A".toList).2.1
        (extract_section_from_markdown "x \n## A\ny".toList "A".toList).2.2
      = "x\n\n## A\ny".toList ∧
    specBlankLineMerge
        (extract_section_from_markdown "x \n## A\ny".toList "A".toList).1
        (extract_section_from_markdown "x \n## A\ny".toList "A".toList).2.1
        (extract_section_from_markdown "x \n## A\ny".toList "A".toList).2.2
      = "x \n\n## A\ny".toList := by
  decide

/-- Conclusion of the amended C1: the merged document is the
whitespace-normalized join of the three located parts (each stripped of
all leading/trailing whitespace, empty parts dropped, survivors joined
by one blank line), and the three located parts reassemble exactly to
the original document: `D` is `before`, a newline (when `before` is a
non-degenerate prefix), the section, a newline and `after` (when the
section does not reach the end). -/
def C1Concl (md b s a : List Char) (st en llen : Nat) : Prop :=
  merge_section_into_design b s a
    = joinBlank (([b, s, a].map pyStrip).filter fun x => !x.isEmpty) ∧
  md = (if st = 0 then [] else b ++ ['\n']) ++ s
        ++ (if en = llen then [] else '\n' :: a)

/-- C1 amended: locating a section (at line `st`, level `lvl`) and
re-merging the unmodified triple yields the original document up to
whitespace normalization of the three parts at the two seams — each
part stripped of leading/trailing whitespace (not only of whole blank
lines), empty parts dropped, survivors separated by exactly one blank
line — and the located triple itself partitions the document exactly. -/
theorem c1_round_trip (md name b s a : List Char) (st lvl : Nat)
    (h : extractIdx (splitLines md) name = some (st, lvl))
    (he : extract_section_from_markdown md name = (b, s, a)) :
    C1Concl md b s a st (sectionEnd (splitLines md) st lvl)
      (splitLines md).length := by
  have hst : st < (splitLines md).length := extractIdx_start_lt _ _ _ _ h
  obtain ⟨hs1, hs2, _, _⟩ := sectionEnd_spec (splitLines md) st lvl hst
  have hex : extract_section_from_markdown md name
      = (joinLines ((splitLines md).take st),
         joinLines (((splitLines md).drop st).take
           (sectionEnd (splitLines md) st lvl - st)),
         joinLines ((splitLines md).drop (sectionEnd (splitLines md) st lvl))) := by
    simp only [extract_section_from_markdown, h]
  rw [hex] at he
  injection he with e1 he2
  injection he2 with e2 e3
  subst e1
  subst e2
  subst e3
  constructor
  · exact merge_eq_filter_join _ _ _
  · exact (joinLines_splitLines md).symm.trans
      (joinLines_partition_eq (splitLines md) st
        (sectionEnd (splitLines md) st lvl) hs1 hs2)

/-- Witness for C1 amended on a concrete document: locating `"A"` in
`"intro\n## A\nbody\n## B\nend"` and re-merging reproduces the document. -/
theorem c1_round_trip_witness :
    C1Concl "intro\n## A\nbody\n## B\nend".toList "intro".toList
      "## A\nbody".toList "## B\nend".toList 1
      (sectionEnd (splitLines "intro\n## A\nbody\n## B\nend".toList) 1 2)
      (splitLines "intro\n## A\nbody\n## B\nend".toList).length :=
  c1_round_trip "intro\n## A\nbody\n## B\nend".toList "A".toList
    "intro".toList "## A\nbody".toList "## B\nend".toList 1 2
    (by decide) (by decide)

/-- A concrete session context used to instantiate the store theorems. -/
def ctxA : SessionContext :=
  { session_id := "s", base_prompt := "p", latest_design := "v1",
    history := [], created_at := 0, updated_at := 0 }

/-- A concrete one-session store. -/
def storeA : SessionStore := [("s", ctxA)]

/-- A concrete session context with a non-empty history. -/
def ctxB : SessionContext :=
  { session_id := "s", base_prompt := "p", latest_design := "v1",
    history := ["v0"], created_at := 0, updated_at := 0 }

/-- A concrete one-session store with history. -/
def storeB : SessionStore := [("s", ctxB)]

/-- C2: for a session id present in the store, `update` with
`append_history = true` appends the pre-call latest document to the
history and then overwrites the latest document (so the newly installed
version is not in the history it leaves behind), while
`append_history = false` overwrites the latest document leaving the
history untouched; both paths set `updated_at` to the call time; and
`update` of an id not in the store returns `False` and leaves the store
unchanged. -/
theorem c2_update_session_correct (m : SessionStore) (sid d : String) (now : Nat) :
    (∀ s, dGet m sid = some s →
      update_session m sid d true now
        = (true, dSet m sid
            { s with history := s.history ++ [s.latest_design],
                     latest_design := d, updated_at := now }) ∧
      update_session m sid d false now
        = (true, dSet m sid { s with latest_design := d, updated_at := now })) ∧
    (dGet m sid = none →
      ∀ ah, update_session m sid d ah now = (false, m)) := by
  constructor
  · intro s hs
    constructor
    · simp [update_session, hs, add_to_history]
    · simp [update_session, hs]
  · intro hn ah
    simp [update_session, hn]

/-- Witness for C2 at a concrete store. -/
theorem c2_update_session_correct_witness :
    update_session storeA "s" "v2" true 5
      = (true, dSet storeA "s"
          { ctxA with history := ctxA.history ++ [ctxA.latest_design],
                      latest_design := "v2", updated_at := 5 }) ∧
    update_session storeA "s" "v2" false 5
      = (true, dSet storeA "s" { ctxA with latest_design := "v2", updated_at := 5 }) :=
  (c2_update_session_correct storeA "s" "v2" 5).1 ctxA (by decide)

/-- C4 counterexample: the claim says `create` on an id already present
fails with AlreadyExists and leaves the session untouched; the source
`create_session` has no existence check and silently replaces the
session (here wiping its history and design). -/
theorem c4_counterexample :
    (dGet storeB "s").isSome = true ∧
    (create_session storeB "p2" "d2" (some "s") "f" 7).1 = "s" ∧
    dGet (create_session storeB "p2" "d2" (some "s") "f" 7).2 "s"
      = some { session_id := "s", base_prompt := "p2", latest_design := "d2",
               history := [], created_at := 7, updated_at := 7 } ∧
    dGet (create_session storeB "p2" "d2" (some "s") "f" 7).2 "s" ≠ dGet storeB "s" := by
  decide

/-- C4 amended: `create` called with an id already present does not
fail — the source signals no AlreadyExists at all — and silently
replaces the stored session with a fresh context (empty history, both
timestamps set to the call time). -/
theorem c4_create_silently_overwrites (m : SessionStore) (bp d : String)
    (sid : Option String) (fresh : String) (now : Nat) (idu : String)
    (h1 : resolveId sid fresh = idu) (h2 : (dGet m idu).isSome = true) :
    create_session m bp d sid fresh now
      = (idu, dSet m idu
          { session_id := idu, base_prompt := bp, latest_design := d,
            history := [], created_at := now, updated_at := now }) := by
  simp [create_session, h1]

/-- Witness for C4 amended at a concrete store. -/
theorem c4_create_silently_overwrites_witness :
    create_session storeB "p2" "d2" (some "s") "f" 7
      = ("s", dSet storeB "s"
          { session_id := "s", base_prompt := "p2", latest_design := "d2",
            history := [], created_at := 7, updated_at := 7 }) :=
  c4_create_silently_overwrites storeB "p2" "d2" (some "s") "f" 7 "s"
    (by decide) (by decide)

/-- History length of the session stored under `q`, if any. -/
def histLenAt (m : SessionStore) (q : String) : Option Nat :=
  (dGet m q).map fun s => s.history.length

/-- C3 counterexample: the claim says history length never decreases
across any sequence of store operations including `create`; but a
`create` on an id already in the store resets its history to `[]`.
After `create`, one history-appending `update`, and a second `create`
on the same id, the history length drops from 1 to 0. -/
theorem c3_counterexample :
    (let m1 := (create_session [] "p" "v1" (some "s") "f" 0).2
     let m2 := (update_session m1 "s" "v2" true 1).2
     let m3 := stepOp m2 (Op.create "p" "v3" (some "s") "f" 2)
     histLenAt m2 "s" = some 1 ∧ histLenAt m3 "s" = some 0) := by
  decide

/-- Conclusion of the amended C3 invariant: the history of a session
visible both before and after an operation never shrinks; it grows only
through a history-appending `update` of that id; and `get_or_create`
addressed at that existing id leaves the history untouched. -/
def HistMonotoneConcl (op : Op) (q : String) (s t : SessionContext) : Prop :=
  s.history.length ≤ t.history.length ∧
  (s.history.length < t.history.length → ∃ d now, op = Op.update q d true now) ∧
  (∀ bp d fr now, op = Op.getOrCreate bp d (some q) fr now → t.history = s.history)

/-- C3 amended: provided the operation is not a `create` (direct, or via
the creation fallback of `get_or_create`) whose resolved id is already
present — the one overwriting case exhibited by the counterexample —
the history length of any session present before and after the
operation never decreases, strict growth happens only through
`update(q, d, append_history = true)`, and `get_or_create` with an
existing id leaves the history unchanged. -/
theorem c3_history_monotone (m : SessionStore) (op : Op)
    (hc : overwritingCreate m op = false) (q : String) (s t : SessionContext)
    (h1 : dGet m q = some s) (h2 : dGet (stepOp m op) q = some t) :
    HistMonotoneConcl op q s t := by
  unfold HistMonotoneConcl
  cases op with
  | create bp d sid fr now =>
    have hc2 : (dGet m (resolveId sid fr)).isSome = false := by
      simpa [overwritingCreate] using hc
    have hnone : dGet m (resolveId sid fr) = none := by
      cases ho : dGet m (resolveId sid fr) with
      | none => rfl
      | some v => rw [ho] at hc2; simp at hc2
    have hne : resolveId sid fr ≠ q := by
      intro he; rw [he, h1] at hnone; cases hnone
    have hstep : stepOp m (Op.create bp d sid fr now)
        = dSet m (resolveId sid fr)
            { session_id := resolveId sid fr, base_prompt := bp,
              latest_design := d, history := [], created_at := now,
              updated_at := now } := rfl
    rw [hstep, dGet_dSet_ne _ _ _ _ hne, h1] at h2
    injection h2 with h3
    subst h3
    exact ⟨Nat.le_refl _, fun hlt => absurd hlt (Nat.lt_irrefl _),
      fun bp2 d2 fr2 now2 he => Op.noConfusion he⟩
  | get sid =>
    have hstep : stepOp m (Op.get sid) = m := rfl
    rw [hstep, h1] at h2
    injection h2 with h3
    subst h3
    exact ⟨Nat.le_refl _, fun hlt => absurd hlt (Nat.lt_irrefl _),
      fun bp2 d2 fr2 now2 he => Op.noConfusion he⟩
  | update sid d ah now =>
    cases hm : dGet m sid with
    | none =>
      have hstep : stepOp m (Op.update sid d ah now) = m := by
        simp [stepOp, update_session, hm]
      rw [hstep, h1] at h2
      injection h2 with h3
      subst h3
      exact ⟨Nat.le_refl _, fun hlt => absurd hlt (Nat.lt_irrefl _),
        fun bp2 d2 fr2 now2 he => Op.noConfusion he⟩
    | some s2 =>
      cases ah with
      | true =>
        have hstep : stepOp m (Op.update sid d true now)
            = dSet m sid (add_to_history s2 d now) := by
          simp [stepOp, update_session, hm]
        rw [hstep] at h2
        by_cases hq : sid = q
        · subst hq
          rw [h1] at hm
          injection hm with h4
          subst h4
          rw [dGet_dSet_self] at h2
          injection h2 with h5
          subst h5
          refine ⟨?_, fun _ => ⟨d, now, rfl⟩, fun bp2 d2 fr2 now2 he => Op.noConfusion he⟩
          simp [add_to_history]
        · rw [dGet_dSet_ne _ _ _ _ hq, h1] at h2
          injection h2 with h3
          subst h3
          exact ⟨Nat.le_refl _, fun hlt => absurd hlt (Nat.lt_irrefl _),
            fun bp2 d2 fr2 now2 he => Op.noConfusion he⟩
      | false =>
        have hstep : stepOp m (Op.update sid d false now)
            = dSet m sid { s2 with latest_design := d, updated_at := now } := by
          simp [stepOp, update_session, hm]
        rw [hstep] at h2
        by_cases hq : sid = q
        · subst hq
          rw [h1] at hm
          injection hm with h4
          subst h4
          rw [dGet_dSet_self] at h2
          injection h2 with h5
          subst h5
          exact ⟨Nat.le_refl _, fun hlt => absurd hlt (Nat.lt_irrefl _),
            fun bp2 d2 fr2 now2 he => Op.noConfusion he⟩
        · rw [dGet_dSet_ne _ _ _ _ hq, h1] at h2
          injection h2 with h3
          subst h3
          exact ⟨Nat.le_refl _, fun hlt => absurd hlt (Nat.lt_irrefl _),
            fun bp2 d2 fr2 now2 he => Op.noConfusion he⟩
  | getOrCreate bp d sid fr now =>
    cases sid with
    | none =>
      have hc2 : (dGet m fr).isSome = false := by
        simpa [overwritingCreate] using hc
      have hnone : dGet m fr = none := by
        cases ho : dGet m fr with
        | none => rfl
        | some v => rw [ho] at hc2; simp at hc2
      have hne : fr ≠ q := by
        intro he; rw [he, h1] at hnone; cases hnone
      have hstep : stepOp m (Op.getOrCreate bp d none fr now)
          = dSet m fr
              { session_id := fr, base_prompt := bp, latest_design := d,
                history := [], created_at := now, updated_at := now } := rfl
      rw [hstep, dGet_dSet_ne _ _ _ _ hne, h1] at h2
      injection h2 with h3
      subst h3
      refine ⟨Nat.le_refl _, fun hlt => absurd hlt (Nat.lt_irrefl _), ?_⟩
      intro bp2 d2 fr2 now2 he
      injection he with e1 e2 e3 e4 e5
      cases e3
    | some x =>
      by_cases hcond : x ≠ "" ∧ (dGet m x).isSome
      · obtain ⟨hx1, hx2⟩ := hcond
        cases hmx : dGet m x with
        | none => rw [hmx] at hx2; simp at hx2
        | some s2 =>
          have hstep : stepOp m (Op.getOrCreate bp d (some x) fr now)
              = dSet m x { s2 with latest_design := d, updated_at := now } := by
            simp [stepOp, get_or_create_session, hx1, hx2, update_session, hmx]
          rw [hstep] at h2
          by_cases hq : x = q
          · subst hq
            rw [h1] at hmx
            injection hmx with h4
            subst h4
            rw [dGet_dSet_self] at h2
            injection h2 with h5
            subst h5
            exact ⟨Nat.le_refl _, fun hlt => absurd hlt (Nat.lt_irrefl _),
              fun bp2 d2 fr2 now2 he => rfl⟩
          · rw [dGet_dSet_ne _ _ _ _ hq, h1] at h2
            injection h2 with h3
            subst h3
            exact ⟨Nat.le_refl _, fun hlt => absurd hlt (Nat.lt_irrefl _),
              fun bp2 d2 fr2 now2 he => rfl⟩
      · have hc2 : (dGet m (resolveId (some x) fr)).isSome = false := by
          simpa [overwritingCreate, if_neg hcond] using hc
        have hnone : dGet m (resolveId (some x) fr) = none := by
          cases ho : dGet m (resolveId (some x) fr) with
          | none => rfl
          | some v => rw [ho] at hc2; simp at hc2
        have hne : resolveId (some x) fr ≠ q := by
          intro he; rw [he, h1] at hnone; cases hnone
        have hstep : stepOp m (Op.getOrCreate bp d (some x) fr now)
            = dSet m (resolveId (some x) fr)
                { session_id := resolveId (some x) fr, base_prompt := bp,
                  latest_design := d, history := [], created_at := now,
                  updated_at := now } := by
          simp only [stepOp, get_or_create_session]
          rw [if_neg hcond]
          rfl
        rw [hstep, dGet_dSet_ne _ _ _ _ hne, h1] at h2
        injection h2 with h3
        subst h3
        exact ⟨Nat.le_refl _, fun hlt => absurd hlt (Nat.lt_irrefl _),
          fun bp2 d2 fr2 now2 he => rfl⟩
  | delete sid =>
    cases hd : (dGet m sid).isSome with
    | false =>
      have hstep : stepOp m (Op.delete sid) = m := by
        simp [stepOp, delete_session, hd]
      rw [hstep, h1] at h2
      injection h2 with h3
      subst h3
      exact ⟨Nat.le_refl _, fun hlt => absurd hlt (Nat.lt_irrefl _),
        fun bp2 d2 fr2 now2 he => Op.noConfusion he⟩
    | true =>
      have hstep : stepOp m (Op.delete sid) = dDel m sid := by
        simp [stepOp, delete_session, hd]
      rw [hstep, dGet_dDel] at h2
      by_cases hq : sid = q
      · rw [if_pos (by simp [hq])] at h2
        cases h2
      · rw [if_neg (by simp [hq]), h1] at h2
        injection h2 with h3
        subst h3
        exact ⟨Nat.le_refl _, fun hlt => absurd hlt (Nat.lt_irrefl _),
          fun bp2 d2 fr2 now2 he => Op.noConfusion he⟩

/-- Witness for C3 amended: a history-appending update on a concrete
store grows the history. -/
theorem c3_history_monotone_witness :
    HistMonotoneConcl (Op.update "s" "v2" true 5) "s" ctxA (add_to_history ctxA "v2" 5) :=
  c3_history_monotone storeA (Op.update "s" "v2" true 5) (by decide) "s"
    ctxA (add_to_history ctxA "v2" 5) (by decide) (by decide)

/-! ## Claim theorems: reference cache -/

/-- C8, evaluated at the failing input: the table name every SQL string
in `reference_store.py` uses is the reserved SQLite keyword
`references`, so each statement raises `OperationalError`;
consequently `set("q", [r1, r2])` stores nothing and the immediate
`get("q")` — which the claim requires to return `[r1, r2]` — returns
`None`. -/
theorem c8_cache_never_hits :
    tableNameReserved referencesTableName = true ∧
    ReferenceStore.set sqliteExec [] "q" ["r1", "r2"] 0 = [] ∧
    (ReferenceStore.get sqliteExec
      (ReferenceStore.set sqliteExec [] "q" ["r1", "r2"] 0) "q" 0).1 = none := by
  decide

/-- C9: the cache fails open.  Whatever the backing store does, a
raised error in the select leaves `get` returning `None` with the
database untouched; a raised error in the insert leaves `set` returning
the database unchanged (as if nothing were written); and a raised error
in the lazy-eviction delete is swallowed too, `get` still returning
`None`. -/
theorem c9_cache_fails_open (exec : CacheExec) (db : CacheDb) (q : String)
    (refs : List String) (now : Nat) :
    (exec db (SqlCmd.select referencesTableName (md5Model q)) = SqlOutcome.err →
      ReferenceStore.get exec db q now = (none, db)) ∧
    (exec db (SqlCmd.insertRep referencesTableName
        { query_hash := md5Model q, query_text := q, payload := refs,
          expires_at := now + cacheExpirySeconds }) = SqlOutcome.err →
      ReferenceStore.set exec db q refs now = db) ∧
    (∀ db1 row rest,
      exec db (SqlCmd.select referencesTableName (md5Model q))
          = SqlOutcome.ok db1 (row :: rest) →
      ¬ now < row.expires_at →
      exec db1 (SqlCmd.deleteRow referencesTableName (md5Model q))
          = SqlOutcome.err →
      ReferenceStore.get exec db q now = (none, db1)) := by
  refine ⟨?_, ?_, ?_⟩
  · intro h
    simp [ReferenceStore.get, h]
  · intro h
    simp [ReferenceStore.set, h]
  · intro db1 row rest h1 h2 h3
    simp [ReferenceStore.get, h1, h2, h3]

/-- An always-failing backing store, for the C9 witness. -/
def failExec : CacheExec := fun _ _ => SqlOutcome.err

/-- Witness for C9: with a backing store whose every statement raises,
`get` returns `None` and `set` writes nothing, neither propagating the
error. -/
theorem c9_cache_fails_open_witness :
    ReferenceStore.get failExec [] "q" 0 = (none, []) ∧
    ReferenceStore.set failExec [] "q" ["r"] 0 = [] :=
  ⟨(c9_cache_fails_open failExec [] "q" ["r"] 0).1 rfl,
   (c9_cache_fails_open failExec [] "q" ["r"] 0).2.1 rfl⟩
